import Mathlib

/-!
Shallow embedding of `editor/contrib/format/common/formatActions.ts`:
the `FormatOnType` editor contribution and the `FormatAction` editor
action, together with the change-tracking watch installed by
`FormatOnType.trigger`.

Machine state that the TypeScript mutates (the `canceled` closure
variable, the live/disposed status of the `unbind` subscription) is made
explicit; the asynchronous continuations of `.then(...)` are modelled as
pure functions from the data available at resolution time (watch state,
provider result, editor selections) to the list of observable effects
they perform, in order.
-/

/-- A line/column position (`IPosition`). Lines are 1-based in the editor;
we use `Nat` since only `≤` comparisons on line numbers matter here. -/
structure Position where
  lineNumber : Nat
  column : Nat
deriving DecidableEq, Repr

/-- A selection (`Selection`), identified by its start and end points.
Modelled from the spec: the host platform's selection type; the core only
reads `isEmpty` and passes selections through to commands. -/
structure Selection where
  startLineNumber : Nat
  startColumn : Nat
  endLineNumber : Nat
  endColumn : Nat
deriving DecidableEq, Repr

/-- Modelled from the spec: a selection is empty when its start and end
coincide (host platform `Range.isEmpty`). -/
def Selection.isEmpty (s : Selection) : Bool :=
  s.startLineNumber == s.endLineNumber && s.startColumn == s.endColumn

/-- An `IRange` of an edit operation. -/
structure Range where
  startLineNumber : Nat
  startColumn : Nat
  endLineNumber : Nat
  endColumn : Nat
deriving DecidableEq, Repr

/-- A single edit operation returned by a provider
(`ISingleEditOperation`): a target range and replacement text
(`null` text encodes a deletion). -/
structure ISingleEditOperation where
  range : Range
  text : Option String
deriving DecidableEq, Repr

/-- `arrays.isFalsyOrEmpty` applied to a possibly-absent edit list:
true when the array is falsy (`none`) or has no elements. -/
def isFalsyOrEmpty (edits : Option (List ISingleEditOperation)) : Bool :=
  match edits with
  | none => true
  | some l => l.length == 0

/-- Modelled from the spec: `EditOperationsCommand` (the EditApplier)
packages an ordered list of edits and the originating selection into one
atomic, undoable command; the core only constructs these values. -/
structure EditOperationsCommand where
  edits : List ISingleEditOperation
  selection : Selection
deriving DecidableEq, Repr

/-- The raw content-change notifications
(`IModelContentChangedEvent`), restricted to the four `changeType`
kinds the watch in `FormatOnType.trigger` classifies:
`ModelRawContentChangedFlush`, `…LineChanged`, `…LinesInserted`,
`…LinesDeleted`. -/
inductive IModelContentChangedEvent where
  | flush
  | lineChanged (lineNumber : Nat)
  | linesInserted (fromLineNumber : Nat) (toLineNumber : Nat)
  | linesDeleted (fromLineNumber : Nat) (toLineNumber : Nat)
deriving DecidableEq, Repr

namespace FormatOnType

/-- The value the change listener in `FormatOnType.trigger` assigns to
its `canceled` variable for one event, given the anchor line
(`position.lineNumber` at request time): `true` for a flush
(`model.setValue()`), and otherwise the comparison of the event's line
against the anchor (`changedLine <= position.lineNumber`,
`insertLine <= position.lineNumber`, `deleteLine2 <= position.lineNumber`). -/
def eventCanceled (anchorLine : Nat) : IModelContentChangedEvent → Bool
  | .flush => true
  | .lineChanged l => decide (l ≤ anchorLine)
  | .linesInserted f _ => decide (f ≤ anchorLine)
  | .linesDeleted _ t => decide (t ≤ anchorLine)

/-- State of the watch installed by `FormatOnType.trigger`: the
`canceled` closure variable and whether `unbind.dispose()` has been
called. -/
structure WatchState where
  canceled : Bool
  disposed : Bool
deriving DecidableEq, Repr

/-- The watch as freshly installed by `onDidChangeModelRawContent`:
`canceled = false`, subscription live. -/
def WatchState.initial : WatchState := { canceled := false, disposed := false }

/-- One delivery of a change notification to the watch's listener. A
disposed subscription receives nothing, so the state is unchanged;
otherwise the listener overwrites `canceled` with the event's
classification and, if now canceled, disposes itself ("cancel only
once"). -/
def watchStep (anchorLine : Nat) (s : WatchState) (e : IModelContentChangedEvent) :
    WatchState :=
  if s.disposed then s
  else
    let c := eventCanceled anchorLine e
    { canceled := c, disposed := c }

/-- The watch state after a sequence of change notifications has been
emitted since the watch was installed at `anchorLine`. -/
def watch (anchorLine : Nat) (events : List IModelContentChangedEvent) : WatchState :=
  events.foldl (watchStep anchorLine) WatchState.initial

theorem watch_foldl_disposed (anchorLine : Nat) (events : List IModelContentChangedEvent)
    (s : WatchState) (h : s.disposed = true) :
    events.foldl (watchStep anchorLine) s = s := by
  induction events with
  | nil => rfl
  | cons e es ih => simp [List.foldl_cons, watchStep, h, ih]

theorem watch_eq_any (anchorLine : Nat) (events : List IModelContentChangedEvent) :
    watch anchorLine events =
      if events.any (eventCanceled anchorLine) then
        { canceled := true, disposed := true }
      else WatchState.initial := by
  induction events with
  | nil => rfl
  | cons e es ih =>
    by_cases hc : eventCanceled anchorLine e = true
    · have hstep : watchStep anchorLine WatchState.initial e =
          { canceled := true, disposed := true } := by
        simp [watchStep, WatchState.initial, hc]
      simp only [watch, List.foldl_cons] at *
      rw [hstep, watch_foldl_disposed anchorLine es _ rfl]
      simp [List.any_cons, hc]
    · have hstep : watchStep anchorLine WatchState.initial e = WatchState.initial := by
        simp [watchStep, WatchState.initial, eq_false_of_ne_true hc]
      simp only [watch, List.foldl_cons] at *
      rw [hstep, ih]
      simp [List.any_cons, eq_false_of_ne_true hc]

end FormatOnType

/-- C1: for every sequence of change notifications delivered to a watch
anchored at line `L`, the watch reports invalidated (`canceled = true`)
iff some notification is a full-content flush, or a single-line change
with line ≤ L, or a lines-insertion with fromLine ≤ L, or a
lines-deletion with toLine ≤ L; events touching only lines strictly
below the anchor never invalidate. -/
theorem FormatOnType.watch_canceled_iff (L : Nat)
    (events : List IModelContentChangedEvent) :
    (FormatOnType.watch L events).canceled = true ↔
      ∃ e ∈ events, FormatOnType.eventCanceled L e = true := by
  rw [FormatOnType.watch_eq_any]
  by_cases h : events.any (FormatOnType.eventCanceled L) = true
  · simp [h, List.any_eq_true.mp h]
  · simp only [h]
    simp only [List.any_eq_true] at h
    simp [FormatOnType.WatchState.initial, h]

/-- C3: the watch's invalidation flag is a monotonic latch: once some
prefix of the notification stream has set `canceled`, delivering any
further notifications (in particular ones touching only lines strictly
below the anchor) never resets it. -/
theorem FormatOnType.watch_canceled_latch (L : Nat)
    (events more : List IModelContentChangedEvent)
    (h : (FormatOnType.watch L events).canceled = true) :
    (FormatOnType.watch L (events ++ more)).canceled = true := by
  rw [FormatOnType.watch_canceled_iff] at h ⊢
  obtain ⟨e, he, hc⟩ := h
  exact ⟨e, List.mem_append_left _ he, hc⟩

/-- Witness for C3: a flush at anchor line 5 latches the watch, and a
later single-line change at line 9 (strictly below the anchor) does not
reset it. -/
theorem FormatOnType.watch_canceled_latch_witness :
    (FormatOnType.watch 5 [IModelContentChangedEvent.flush]).canceled = true ∧
    (FormatOnType.watch 5
      ([IModelContentChangedEvent.flush] ++
        [IModelContentChangedEvent.lineChanged 9])).canceled = true := by
  refine ⟨by decide, ?_⟩
  exact FormatOnType.watch_canceled_latch 5 [IModelContentChangedEvent.flush]
    [IModelContentChangedEvent.lineChanged 9] (by decide)

/-- The selections the controller reads from the editor at the two
moments that matter: when the trigger fires (request time) and when the
asynchronous result resolves (apply time). The source reads
`this.editor.getSelection()` afresh at each moment; between them the
user may have moved the caret. -/
structure EditorTimeline where
  selectionAtRequest : Selection
  selectionAtResolve : Selection
deriving DecidableEq, Repr

/-- Resolution of a formatting request (`TPromise`): either success with
a possibly-absent list of edits, or failure with an error (errors are
opaque to this code; we index them by `Nat`). -/
inductive FormatResult where
  | success (edits : Option (List ISingleEditOperation))
  | failure (err : Nat)
deriving DecidableEq, Repr

namespace FormatOnType

/-- The on-type format request started by `FormatOnType.trigger` when
the guard passes: the captured position, the triggering character, the
formatting options snapshotted from the model, and the freshly
installed watch. -/
structure OnTypeRequest where
  position : Position
  ch : Char
  tabSize : Nat
  insertSpaces : Bool
  watch : WatchState
deriving DecidableEq, Repr

/-- The synchronous part of `FormatOnType.trigger`, up to issuing the
asynchronous request: if more than one selection is active the method
returns without doing anything (`none`); otherwise it captures the
current position, installs the change watch anchored there, snapshots
`{tabSize, insertSpaces}` from the model options, and calls
`getOnTypeFormattingEdits(model, position, ch, opts)` (`some` request). -/
def trigger (selections : List Selection) (position : Position)
    (tabSize : Nat) (insertSpaces : Bool) (ch : Char) : Option OnTypeRequest :=
  if selections.length > 1 then none
  else some { position := position, ch := ch, tabSize := tabSize,
              insertSpaces := insertSpaces, watch := WatchState.initial }

/-- The observable effects performed when an on-type request resolves,
in order: disposing the watch subscription, executing an edit command,
rethrowing an error. -/
inductive ResolveStep where
  | disposeWatch
  | executeCommand (cmd : EditOperationsCommand)
  | rethrow (err : Nat)
deriving DecidableEq, Repr

/-- The two continuations `FormatOnType.trigger` attaches to the
formatting promise, as the ordered list of effects they perform. On
success: `unbind.dispose()`, then return if `canceled` or the edit list
is falsy/empty, else execute one `EditOperationsCommand` built from the
edits and `this.editor.getSelection()` read now (at resolve time). On
failure: `unbind.dispose()`, then `throw err`. -/
def resolve (tl : EditorTimeline) (w : WatchState) : FormatResult → List ResolveStep
  | .success edits =>
    if w.canceled || isFalsyOrEmpty edits then
      [ResolveStep.disposeWatch]
    else
      [ResolveStep.disposeWatch,
       ResolveStep.executeCommand
         { edits := edits.getD [], selection := tl.selectionAtResolve }]
  | .failure err => [ResolveStep.disposeWatch, ResolveStep.rethrow err]

/-- The edit commands executed among a list of resolution effects. -/
def commandsOf (steps : List ResolveStep) : List EditOperationsCommand :=
  steps.filterMap fun s =>
    match s with
    | ResolveStep.executeCommand c => some c
    | _ => none

end FormatOnType

/-- C4: on a typed trigger character, `FormatOnType.trigger` starts a
formatting request (capturing the position, installing a watch and
calling the provider) iff exactly one selection/caret is active; the
editor always has at least one selection, and with several active the
method returns at once, issuing no request and changing no state. -/
theorem FormatOnType.trigger_single_selection_guard
    (selections : List Selection) (position : Position)
    (tabSize : Nat) (insertSpaces : Bool) (ch : Char)
    (h : selections ≠ []) :
    (FormatOnType.trigger selections position tabSize insertSpaces ch).isSome = true ↔
      selections.length = 1 := by
  have hlen : 1 ≤ selections.length := List.length_pos.mpr h
  unfold FormatOnType.trigger
  by_cases hgt : selections.length > 1
  · simp [hgt]
    omega
  · simp [hgt]
    omega

/-- Witness for C4: with the single selection `(1,1)-(1,1)` active, a
typed `}` starts a request. -/
theorem FormatOnType.trigger_single_selection_guard_witness :
    (FormatOnType.trigger [⟨1, 1, 1, 1⟩] ⟨1, 1⟩ 4 true
      (Char.ofNat 125)).isSome = true ↔ [(⟨1, 1, 1, 1⟩ : Selection)].length = 1 :=
  FormatOnType.trigger_single_selection_guard [⟨1, 1, 1, 1⟩] ⟨1, 1⟩ 4 true
    (Char.ofNat 125) (by decide)

/-- C5: when an on-type request resolves successfully, no command is
executed if the watch was canceled or the edit list is falsy/empty;
otherwise exactly one command is executed, built from the returned edits
and the selection read at resolve (apply) time — the resolution effects
do not depend on the selection at request time. -/
theorem FormatOnType.resolve_success_commands
    (sReq sReq' sRes : Selection) (w : FormatOnType.WatchState)
    (edits : Option (List ISingleEditOperation)) :
    FormatOnType.commandsOf
        (FormatOnType.resolve ⟨sReq, sRes⟩ w (FormatResult.success edits)) =
      (if w.canceled || isFalsyOrEmpty edits then []
       else [{ edits := edits.getD [], selection := sRes }]) ∧
    FormatOnType.resolve ⟨sReq, sRes⟩ w (FormatResult.success edits) =
      FormatOnType.resolve ⟨sReq', sRes⟩ w (FormatResult.success edits) := by
  constructor
  · by_cases hc : (w.canceled || isFalsyOrEmpty edits) = true
    · simp [FormatOnType.resolve, FormatOnType.commandsOf, hc]
    · simp only [FormatOnType.resolve, eq_false_of_ne_true hc]
      simp [FormatOnType.commandsOf]
  · by_cases hc : (w.canceled || isFalsyOrEmpty edits) = true
    · simp [FormatOnType.resolve, hc]
    · simp [FormatOnType.resolve, eq_false_of_ne_true hc]

/-- C6: on every resolution of an on-type request the first effect is
disposing the watch subscription, and on failure the error is rethrown
after that disposal (the effect list is exactly dispose-then-rethrow),
with no local recovery. -/
theorem FormatOnType.resolve_disposes_then_rethrows
    (tl : EditorTimeline) (w : FormatOnType.WatchState) (r : FormatResult) :
    (FormatOnType.resolve tl w r).head? = some FormatOnType.ResolveStep.disposeWatch ∧
    (∀ err, r = FormatResult.failure err →
      FormatOnType.resolve tl w r =
        [FormatOnType.ResolveStep.disposeWatch, FormatOnType.ResolveStep.rethrow err]) := by
  cases r with
  | success edits =>
    refine ⟨?_, by intro err h; cases h⟩
    by_cases hc : (w.canceled || isFalsyOrEmpty edits) = true
    · simp [FormatOnType.resolve, hc]
    · simp [FormatOnType.resolve, eq_false_of_ne_true hc]
  | failure err =>
    exact ⟨rfl, by intro e h; cases h; rfl⟩

/-- Witness for C6: a failed request with error 7 disposes the watch and
then rethrows error 7. -/
theorem FormatOnType.resolve_disposes_then_rethrows_witness :
    FormatOnType.resolve ⟨⟨1, 1, 1, 1⟩, ⟨1, 1, 1, 1⟩⟩ FormatOnType.WatchState.initial
        (FormatResult.failure 7) =
      [FormatOnType.ResolveStep.disposeWatch, FormatOnType.ResolveStep.rethrow 7] :=
  (FormatOnType.resolve_disposes_then_rethrows ⟨⟨1, 1, 1, 1⟩, ⟨1, 1, 1, 1⟩⟩
    FormatOnType.WatchState.initial (FormatResult.failure 7)).2 7 rfl

namespace FormatOnType

/-- An on-type formatting provider as seen by
`OnTypeFormattingEditProviderRegistry.ordered(model)`: it may or may not
declare `autoFormatTriggerCharacters` (`none` models the property being
absent/undefined). -/
structure OnTypeProvider where
  autoFormatTriggerCharacters : Option (List Char)
deriving DecidableEq, Repr

/-- `FormatOnType.update`, returning the trigger characters for which
typing listeners get registered. After clearing the old listeners it
returns early when format-on-type is disabled by configuration, when no
model is attached, or when destructuring the head of
`Registry.ordered(model)` (`var [support] = …`) yields no provider or a
provider without `autoFormatTriggerCharacters`; otherwise it registers
one listener per character of the first provider. -/
def update (formatOnType : Bool) (hasModel : Bool)
    (ordered : List OnTypeProvider) : List Char :=
  if !formatOnType then []
  else if !hasModel then []
  else
    match ordered with
    | [] => []
    | support :: _ =>
      match support.autoFormatTriggerCharacters with
      | none => []
      | some chars => chars

end FormatOnType

/-- C9: re-evaluation consults only the head of the registry's ordered
provider list: when the first provider declares no trigger characters,
no typing listeners are registered, whatever later providers declare —
the result does not depend on the tail of the list at all. -/
theorem FormatOnType.update_consults_first_provider_only
    (formatOnType hasModel : Bool) (p : FormatOnType.OnTypeProvider)
    (rest rest' : List FormatOnType.OnTypeProvider)
    (h : p.autoFormatTriggerCharacters = none) :
    FormatOnType.update formatOnType hasModel (p :: rest) = [] ∧
    FormatOnType.update formatOnType hasModel (p :: rest) =
      FormatOnType.update formatOnType hasModel (p :: rest') := by
  constructor <;> (cases formatOnType <;> cases hasModel <;>
    simp [FormatOnType.update, h])

/-- Witness for C9: feature enabled, model attached, first provider
declares no trigger characters while a second provider declares `}`;
no listeners are registered. -/
theorem FormatOnType.update_consults_first_provider_only_witness :
    FormatOnType.update true true
      [⟨none⟩, ⟨some [Char.ofNat 125]⟩] = [] :=
  (FormatOnType.update_consults_first_provider_only true true ⟨none⟩
    [⟨some [Char.ofNat 125]⟩] [] rfl).1

namespace FormatAction

/-- The observable steps of the synchronous body of `FormatAction.run`,
in program order: reading `editor.getSelection()`, invoking
`getDocumentFormattingEdits` or `getDocumentRangeFormattingEdits`
(which issues the asynchronous request when a provider exists),
`editor.captureState(Value, Position)`, and attaching the result
continuation to the promise (the point where `run` starts awaiting
the result). -/
inductive RunStep where
  | readSelection
  | invokeDocumentFormatting
  | invokeRangeFormatting
  | captureState
  | awaitResult
deriving DecidableEq, Repr

/-- The synchronous body of `FormatAction.run` as its ordered step
trace. `hasProvider` records whether the invoked request function
returned a promise (`!formattingPromise` short-circuits to a resolved
no-op before any state is captured). -/
def runTrace (editorSelection : Selection) (hasProvider : Bool) : List RunStep :=
  [RunStep.readSelection] ++
  (if editorSelection.isEmpty then [RunStep.invokeDocumentFormatting]
   else [RunStep.invokeRangeFormatting]) ++
  (if !hasProvider then [] else [RunStep.captureState, RunStep.awaitResult])

/-- `stepsBefore l a b` holds when both steps occur in `l` and the first
occurrence of `a` precedes the first occurrence of `b`. -/
def stepsBefore (l : List RunStep) (a b : RunStep) : Bool :=
  match l.findIdx? (· == a), l.findIdx? (· == b) with
  | some i, some j => decide (i < j)
  | _, _ => false

end FormatAction

/-- C2, counterexample: with an empty selection and a document
formatting provider present, `FormatAction.run` invokes the provider
(issuing the asynchronous request) strictly before capturing the state
token — the token is not captured before the request is issued. -/
theorem FormatAction.run_capture_not_before_request :
    FormatAction.stepsBefore (FormatAction.runTrace ⟨1, 1, 1, 1⟩ true)
        FormatAction.RunStep.invokeDocumentFormatting
        FormatAction.RunStep.captureState = true ∧
    FormatAction.stepsBefore (FormatAction.runTrace ⟨1, 1, 1, 1⟩ true)
        FormatAction.RunStep.captureState
        FormatAction.RunStep.invokeDocumentFormatting = false := by
  decide

/-- C2, amended: the state token is captured after the formatting
request is issued but still within the synchronous body of `run`,
before the result continuation is attached (before `run` first awaits
the asynchronous result), so no editor state change can intervene
between issuing the request and capturing the token. -/
theorem FormatAction.run_capture_before_await
    (editorSelection : Selection) (hasProvider : Bool)
    (h : hasProvider = true) :
    FormatAction.stepsBefore (FormatAction.runTrace editorSelection hasProvider)
        (if editorSelection.isEmpty then FormatAction.RunStep.invokeDocumentFormatting
         else FormatAction.RunStep.invokeRangeFormatting)
        FormatAction.RunStep.captureState = true ∧
    FormatAction.stepsBefore (FormatAction.runTrace editorSelection hasProvider)
        FormatAction.RunStep.captureState
        FormatAction.RunStep.awaitResult = true := by
  subst h
  cases hs : editorSelection.isEmpty <;> simp [FormatAction.runTrace, hs] <;> decide

/-- Witness for C2's amended claim: empty selection, provider present. -/
theorem FormatAction.run_capture_before_await_witness :
    FormatAction.stepsBefore (FormatAction.runTrace ⟨1, 1, 1, 1⟩ true)
        (if (⟨1, 1, 1, 1⟩ : Selection).isEmpty
         then FormatAction.RunStep.invokeDocumentFormatting
         else FormatAction.RunStep.invokeRangeFormatting)
        FormatAction.RunStep.captureState = true ∧
    FormatAction.stepsBefore (FormatAction.runTrace ⟨1, 1, 1, 1⟩ true)
        FormatAction.RunStep.captureState
        FormatAction.RunStep.awaitResult = true :=
  FormatAction.run_capture_before_await ⟨1, 1, 1, 1⟩ true rfl

namespace FormatAction

/-- What the result continuation of `FormatAction.run` does: either a
call `apply(editor, editorSelection, result)` followed by
`editor.focus()`, or nothing. -/
structure RunCompletion where
  applyCall : Option (Selection × List ISingleEditOperation)
  focused : Bool
deriving DecidableEq, Repr

/-- The result continuation of `FormatAction.run`: return early when the
captured state token no longer validates against the editor
(`!state.validate(editor)`), or when the result is absent or empty
(`!result || result.length === 0`); otherwise call
`this.apply(editor, editorSelection, result)` — with the `editorSelection`
constant read at the start of `run`, not the editor's current
selection — and then `editor.focus()`. -/
def onFormattingResult (tl : EditorTimeline) (stateValid : Bool)
    (result : Option (List ISingleEditOperation)) : RunCompletion :=
  if !stateValid then { applyCall := none, focused := false }
  else
    match result with
    | none => { applyCall := none, focused := false }
    | some r =>
      if r.length == 0 then { applyCall := none, focused := false }
      else { applyCall := some (tl.selectionAtRequest, r), focused := true }

/-- The observable steps of `FormatAction.apply`, in order. -/
inductive ApplyStep where
  | saveViewState
  | executeCommand (cmd : EditOperationsCommand)
  | restoreViewState
deriving DecidableEq, Repr

/-- `FormatAction.apply(editor, editorSelection, value)` as its ordered
step trace: `state` starts `null` and is set to `editor.saveViewState()`
only when the originating selection is empty; one
`EditOperationsCommand` over the edits and that selection is executed;
`editor.restoreViewState(state)` runs only when `state` was set. -/
def apply (editorSelection : Selection) (value : List ISingleEditOperation) :
    List ApplyStep :=
  let state : Option Unit := if editorSelection.isEmpty then some () else none
  (if state.isSome then [ApplyStep.saveViewState] else []) ++
  [ApplyStep.executeCommand { edits := value, selection := editorSelection }] ++
  (if state.isSome then [ApplyStep.restoreViewState] else [])

/-- The edit commands executed among a list of apply steps. -/
def applyCommandsOf (steps : List ApplyStep) : List EditOperationsCommand :=
  steps.filterMap fun s =>
    match s with
    | ApplyStep.executeCommand c => some c
    | _ => none

/-- The edit commands the whole `run` continuation ends up executing:
none when the continuation abandons, otherwise the commands executed by
the `apply` call it makes. -/
def runCommands (tl : EditorTimeline) (stateValid : Bool)
    (result : Option (List ISingleEditOperation)) : List EditOperationsCommand :=
  match (onFormattingResult tl stateValid result).applyCall with
  | none => []
  | some (sel, edits) => applyCommandsOf (apply sel edits)

theorem applyCommandsOf_apply (sel : Selection) (value : List ISingleEditOperation) :
    applyCommandsOf (apply sel value) =
      [{ edits := value, selection := sel }] := by
  cases hs : sel.isEmpty <;> simp [apply, applyCommandsOf, hs]

end FormatAction

/-- C7: when the manual format action's result arrives, if the captured
state token no longer validates or the result is absent/empty, the
continuation abandons: no `apply` call is made, the editor is not
focused, and no error is raised (the continuation returns normally). -/
theorem FormatAction.onFormattingResult_abandons
    (tl : EditorTimeline) (stateValid : Bool)
    (result : Option (List ISingleEditOperation))
    (h : stateValid = false ∨ isFalsyOrEmpty result = true) :
    FormatAction.onFormattingResult tl stateValid result =
      { applyCall := none, focused := false } := by
  rcases h with h | h
  · simp [FormatAction.onFormattingResult, h]
  · cases result with
    | none => cases stateValid <;> simp [FormatAction.onFormattingResult]
    | some r =>
      simp only [isFalsyOrEmpty] at h
      cases stateValid <;> simp [FormatAction.onFormattingResult, h]

/-- Witness for C7: a stale state token with a nonempty result list
leads to abandonment. -/
theorem FormatAction.onFormattingResult_abandons_witness :
    FormatAction.onFormattingResult ⟨⟨1, 1, 1, 1⟩, ⟨1, 1, 1, 1⟩⟩ false
        (some [{ range := ⟨1, 1, 1, 1⟩, text := some "  " }]) =
      { applyCall := none, focused := false } :=
  FormatAction.onFormattingResult_abandons ⟨⟨1, 1, 1, 1⟩, ⟨1, 1, 1, 1⟩⟩ false
    (some [{ range := ⟨1, 1, 1, 1⟩, text := some "  " }]) (Or.inl rfl)

/-- C8: in `FormatAction.apply`, the view state is saved (before the
command executes) and restored (after it) iff the originating selection
is empty; with an empty selection the trace is exactly
save – execute – restore, with a non-empty selection it is exactly the
command execution alone. -/
theorem FormatAction.apply_view_state_iff_empty_selection
    (sel : Selection) (value : List ISingleEditOperation) :
    (FormatAction.ApplyStep.saveViewState ∈ FormatAction.apply sel value ↔
      sel.isEmpty = true) ∧
    (FormatAction.ApplyStep.restoreViewState ∈ FormatAction.apply sel value ↔
      sel.isEmpty = true) ∧
    FormatAction.apply sel value =
      (if sel.isEmpty then
        [FormatAction.ApplyStep.saveViewState,
         FormatAction.ApplyStep.executeCommand { edits := value, selection := sel },
         FormatAction.ApplyStep.restoreViewState]
       else
        [FormatAction.ApplyStep.executeCommand { edits := value, selection := sel }]) := by
  cases hs : sel.isEmpty <;> simp [FormatAction.apply, hs]

/-- C10: the command the manual format continuation executes is built
from the selection read before the request was issued: the executed
commands are unchanged when the selection at resolve time differs, and
every executed command carries the request-time selection. -/
theorem FormatAction.run_command_uses_request_time_selection
    (sReq sRes sRes' : Selection) (stateValid : Bool)
    (result : Option (List ISingleEditOperation)) :
    FormatAction.runCommands ⟨sReq, sRes⟩ stateValid result =
      FormatAction.runCommands ⟨sReq, sRes'⟩ stateValid result ∧
    (FormatAction.runCommands ⟨sReq, sRes⟩ stateValid result).all
      (fun c => c.selection == sReq) = true := by
  cases stateValid with
  | false => simp [FormatAction.runCommands, FormatAction.onFormattingResult]
  | true =>
    cases result with
    | none => simp [FormatAction.runCommands, FormatAction.onFormattingResult]
    | some r =>
      by_cases hr : (r.length == 0) = true
      · simp [FormatAction.runCommands, FormatAction.onFormattingResult, hr]
      · simp [FormatAction.runCommands, FormatAction.onFormattingResult,
          eq_false_of_ne_true hr, FormatAction.applyCommandsOf_apply]
